import Mathlib

/-!
A file watcher: modification detection and byte deltas.

A shallow embedding of `watcher.go`.  The operating system is an explicit
argument: every call of a `Watcher` method receives an `Env` that says what
`os.Stat`, `os.Open` and the successive `f.Read` calls answer during that call.
Methods with a pointer receiver return the updated `Watcher` next to their Go
results, together with the list of system calls they performed.
-/

namespace FileWatcher

/-- One byte of file content. -/
abbrev Byte := UInt8

/-! A `time.Time` instant is an `Int`: its count of nanoseconds since the zero
time. -/

/-- The zero value `time.Time{}`. -/
def zeroTime : Int := 0

/-- The smallest `time.Duration` (an int64 count of nanoseconds). -/
def minDuration : Int := -(2 ^ 63)

/-- The largest `time.Duration`. -/
def maxDuration : Int := 2 ^ 63 - 1

/-- `t.Sub(u)`: the duration `t - u`, saturated to the int64 range. -/
def Sub (t u : Int) : Int :=
  if t - u < minDuration then minDuration
  else if maxDuration < t - u then maxDuration
  else t - u

/-- A Go `error` value: the sentinel `io.EOF`, or an error carrying a message. -/
inductive GoError where
  | EOF : GoError
  | msg : String → GoError
  deriving DecidableEq, Repr

/-- `fmt.Errorf(lostError, fileName)` with `lostError = "File %s is no longer accessible"`. -/
def lostError (fileName : String) : GoError :=
  GoError.msg ("File " ++ fileName ++ " is no longer accessible")

/-- A channel value made by `make(chan T, cap)`; a nil channel is `none`. -/
structure Chan where
  cap : Nat
  deriving DecidableEq, Repr

/-- The `Watcher` struct.  `readBytes` and `lastStartBytes` are Go `int`s that
hold offsets into one file; the operating system keeps file offsets below
`2 ^ 63`, so the additions on them never wrap and they are natural numbers
here. -/
structure Watcher where
  ByteChannel : Option Chan
  chanInterval : Int
  ErrChannel : Option Chan
  fileLost : Bool
  fileName : String
  initialModTime : Int
  readBytes : Nat
  lastStartBytes : Nat
  lastModified : Int
  useChan : Bool
  deriving DecidableEq, Repr

/-- The zero value `Watcher{}`. -/
def zeroWatcher : Watcher :=
  { ByteChannel := none, chanInterval := 0, ErrChannel := none, fileLost := false,
    fileName := "", initialModTime := zeroTime, readBytes := 0, lastStartBytes := 0,
    lastModified := zeroTime, useChan := false }

/-- The type `WatcherOpt`, a function acting on a `Watcher`. -/
abbrev WatcherOpt := Watcher → Watcher

/-- The result `(n, err)` of one `f.Read(buf)`: `data` is `buf[:n]`. -/
structure ReadResult where
  data : List Byte
  err : Option GoError
  deriving DecidableEq, Repr

/-- An open file: for the offset at which reading starts, the results of the
successive `Read` calls.  Past the end of the list every `Read` returns
`(0, io.EOF)`. -/
abbrev Handle := Nat → List ReadResult

/-- What the operating system answers during one method call. -/
structure Env where
  osStat : String → Except GoError Int
  osOpen : String → Except GoError Handle

/-- A system call performed by the watcher. -/
inductive SysCall where
  | stat : String → SysCall
  | fopen : String → SysCall
  | seek : Nat → SysCall
  | read : SysCall
  deriving DecidableEq, Repr

/-- `getModTime`: the watcher after the call and the returned time. -/
def getModTime (w : Watcher) (env : Env) : Watcher × Int :=
  match env.osStat w.fileName with
  | Except.error _ => ({ w with fileLost := true }, zeroTime)
  | Except.ok t => (w, t)

/-- Result of `WasModified`. -/
structure ModResult where
  w : Watcher
  ok : Bool
  err : Option GoError
  calls : List SysCall
  deriving DecidableEq, Repr

/-- `WasModified`. -/
def WasModified (w : Watcher) (env : Env) : ModResult :=
  let (w1, mod) := getModTime w env
  if w1.fileLost then
    { w := w1, ok := false, err := some (lostError w1.fileName), calls := [SysCall.stat w.fileName] }
  else
    let checkTime : Int :=
      if Sub w1.lastModified w1.initialModTime > 0 then w1.lastModified else w1.initialModTime
    if Sub mod checkTime > 0 then
      { w := { w1 with lastModified := mod }, ok := true, err := none,
        calls := [SysCall.stat w.fileName] }
    else
      { w := w1, ok := false, err := none, calls := [SysCall.stat w.fileName] }

/-- Result of `byteDelta` and of `GetNewBytes`. -/
structure BytesResult where
  w : Watcher
  bytes : List Byte
  err : Option GoError
  calls : List SysCall
  deriving DecidableEq, Repr

/-- The `top:` loop of `byteDelta`, run over the results of the `Read` calls. -/
def readLoop : List ReadResult → Watcher → List Byte → List SysCall → BytesResult
  | [], w, contents, calls =>
    { w := w, bytes := contents, err := none, calls := calls ++ [SysCall.read] }
  | r :: rest, w, contents, calls =>
    match r.err with
    | some e =>
      if e = GoError.EOF then
        { w := w, bytes := contents, err := none, calls := calls ++ [SysCall.read] }
      else
        { w := w, bytes := contents, err := some e, calls := calls ++ [SysCall.read] }
    | none =>
      if r.data.length > 0 then
        readLoop rest
          { w with lastStartBytes := w.readBytes, readBytes := w.readBytes + r.data.length }
          (contents ++ r.data) (calls ++ [SysCall.read])
      else
        readLoop rest w contents (calls ++ [SysCall.read])

/-- `byteDelta`. -/
def byteDelta (w : Watcher) (env : Env) : BytesResult :=
  match env.osOpen w.fileName with
  | Except.error e => { w := w, bytes := [], err := some e, calls := [SysCall.fopen w.fileName] }
  | Except.ok f =>
    if w.readBytes > 0 then
      readLoop (f w.readBytes) w [] [SysCall.fopen w.fileName, SysCall.seek w.readBytes]
    else
      readLoop (f 0) w [] [SysCall.fopen w.fileName]

/-- `GetNewBytes`. -/
def GetNewBytes (w : Watcher) (env : Env) : BytesResult :=
  let r := WasModified w env
  match r.err with
  | some e => { w := r.w, bytes := [], err := some e, calls := r.calls }
  | none =>
    if !r.ok && r.w.readBytes != 0 then
      { w := r.w, bytes := [], err := none, calls := r.calls }
    else
      let d := byteDelta r.w env
      { d with calls := r.calls ++ d.calls }

/-- A send performed by the channel monitor. -/
inductive Send where
  | onErrChannel : GoError → Send
  | onByteChannel : List Byte → Send
  deriving DecidableEq, Repr

/-- The body of one tick of `startChannelMonitor` after `GetNewBytes` returned
`(bytes, err)`: the channel sends, in program order. -/
def monitorSends (bytes : List Byte) (err : Option GoError) : List Send :=
  (match err with
    | some e => [Send.onErrChannel e, Send.onByteChannel []]
    | none => []) ++
  (if bytes.length > 0 then [Send.onByteChannel bytes] else [])

/-- One tick of the loop of `startChannelMonitor`. -/
def monitorTick (w : Watcher) (env : Env) : Watcher × List Send :=
  let r := GetNewBytes w env
  (r.w, monitorSends r.bytes r.err)

/-- `WithChannelMonitor`. -/
def WithChannelMonitor (interval : Int) : WatcherOpt := fun w =>
  { w with chanInterval := interval, useChan := true,
           ByteChannel := some { cap := 1 }, ErrChannel := some { cap := 1 } }

/-- Result of `New`: the watcher, the error, and whether `startChannelMonitor` ran. -/
structure NewResult where
  watcher : Watcher
  err : Option GoError
  monitorStarted : Bool
  deriving DecidableEq, Repr

/-- `New`. -/
def New (env : Env) (file : String) (opts : List WatcherOpt) : NewResult :=
  match env.osStat file with
  | Except.error e => { watcher := zeroWatcher, err := some e, monitorStarted := false }
  | Except.ok t =>
    let watcher0 : Watcher :=
      { zeroWatcher with fileName := file, initialModTime := t, lastModified := t }
    let watcher := opts.foldl (fun w opt => opt w) watcher0
    { watcher := watcher, err := none, monitorStarted := watcher.useChan }

/-! ## The environment seen as a file -/

/-- The bytes handed over by the `Read` calls that returned a nil error, up to
the first `Read` that returned an error. -/
def bytesRead : List ReadResult → List Byte
  | [] => []
  | r :: rest =>
    match r.err with
    | some _ => []
    | none => r.data ++ bytesRead rest

/-- The first non-nil error among the results of the `Read` calls; `io.EOF`
when the list ends before any. -/
def firstErr : List ReadResult → GoError
  | [] => GoError.EOF
  | r :: rest =>
    match r.err with
    | some e => e
    | none => firstErr rest

/-- All reads on the handle succeed and deliver the content of the file:
read from any offset, the handle yields the bytes from that offset to the end
of the file, then `io.EOF`. -/
def ReadsFile (content : List Byte) (f : Handle) : Prop :=
  ∀ off, bytesRead (f off) = content.drop off ∧ firstErr (f off) = GoError.EOF

/-- The length of the buffer `buf` in `byteDelta`. -/
def bufSize : Nat := 32 * 1024

/-- Reading `bs` to the end through a buffer of `size` bytes: full buffers,
then `(0, io.EOF)`. -/
def readChunks (size : Nat) : Nat → List Byte → List ReadResult
  | 0, _ => []
  | fuel + 1, bs =>
    if bs.isEmpty then [{ data := [], err := some GoError.EOF }]
    else { data := bs.take size, err := none } :: readChunks size fuel (bs.drop size)

/-- A handle on a regular file with the given content. -/
def fileHandle (content : List Byte) : Handle := fun off =>
  readChunks bufSize (content.length + 1) (content.drop off)

/-- The watched file at one moment. -/
structure FileState where
  modTime : Int
  content : List Byte
  deriving DecidableEq, Repr

/-- The environment in which the watched path is in the given state; `none`
is a path that cannot be looked up. -/
def envOf (fs : Option FileState) : Env :=
  match fs with
  | none =>
    { osStat := fun _ => Except.error (GoError.msg "no such file or directory"),
      osOpen := fun _ => Except.error (GoError.msg "no such file or directory") }
  | some s =>
    { osStat := fun _ => Except.ok s.modTime,
      osOpen := fun _ => Except.ok (fileHandle s.content) }

/-- The fields of a watcher that the read loop never writes. -/
def sameButOffsets (w1 w2 : Watcher) : Prop :=
  w1.ByteChannel = w2.ByteChannel ∧ w1.chanInterval = w2.chanInterval ∧
  w1.ErrChannel = w2.ErrChannel ∧ w1.fileLost = w2.fileLost ∧ w1.fileName = w2.fileName ∧
  w1.initialModTime = w2.initialModTime ∧ w1.lastModified = w2.lastModified ∧
  w1.useChan = w2.useChan

/-- The sends of one tick as the specification lists them: on an error, the
error and one empty byte sequence; without error, the bytes when there are
any. -/
def specSends (bytes : List Byte) (err : Option GoError) : List Send :=
  match err with
  | some e => [Send.onErrChannel e, Send.onByteChannel []]
  | none => if bytes.length > 0 then [Send.onByteChannel bytes] else []

/-- An environment in which the file exists and opens, and the second `Read`
fails after a first one delivered two bytes. -/
def faultyEnv : Env :=
  { osStat := fun _ => Except.ok 1,
    osOpen := fun _ => Except.ok (fun _ =>
      [{ data := [104, 105], err := none },
       { data := [], err := some (GoError.msg "input/output error") }]) }

/-- Every option of the list is one made by `WithChannelMonitor`. -/
def channelOpts (opts : List WatcherOpt) : Prop :=
  ∀ o ∈ opts, ∃ k, o = WithChannelMonitor k

/-- The answers the specification expects from successive `WasModified` calls
that observe the given modification times, the previous one being `prev`: true
exactly when the time observed is strictly later than the one before it. -/
def advances : Int → List Int → List Bool
  | _, [] => []
  | prev, m :: rest => decide (prev < m) :: advances m rest

/-- A file that starts with content `c` and modification time `m` and is only
appended to: before each call the next byte sequence is appended, the
modification time moves strictly forward, and in the environment of the call
the status lookup, the open and all reads succeed on the file as it then is. -/
def AppendRun (file : String) : Int → List Byte → List (List Byte × Env) → Prop
  | _, _, [] => True
  | m, c, (b, env) :: rest =>
    ∃ m1 f, m < m1 ∧ env.osStat file = Except.ok m1 ∧ env.osOpen file = Except.ok f ∧
      ReadsFile (c ++ b) f ∧ AppendRun file m1 (c ++ b) rest

/-! ## Sequences of calls -/

/-- The two public methods. -/
inductive Op where
  | wasModified : Op
  | getNewBytes : Op
  deriving DecidableEq, Repr

/-- What a call returned and which system calls it made.  For `WasModified`
the byte field is empty; for `GetNewBytes` the boolean is `false`. -/
structure CallResult where
  ok : Bool
  bytes : List Byte
  err : Option GoError
  calls : List SysCall
  deriving DecidableEq, Repr

/-- One call of a public method. -/
def call (op : Op) (w : Watcher) (env : Env) : Watcher × CallResult :=
  match op with
  | Op.wasModified =>
    let r := WasModified w env
    (r.w, { ok := r.ok, bytes := [], err := r.err, calls := r.calls })
  | Op.getNewBytes =>
    let r := GetNewBytes w env
    (r.w, { ok := false, bytes := r.bytes, err := r.err, calls := r.calls })

/-- Successive calls, each in its own environment: the final watcher and the
results in order. -/
def runCalls : Watcher → List (Op × Env) → Watcher × List CallResult
  | w, [] => (w, [])
  | w, (op, env) :: rest =>
    let (w1, r) := call op w env
    let (w2, rs) := runCalls w1 rest
    (w2, r :: rs)

/-- Successive `WasModified` calls: the `(bool, error)` results in order. -/
def runWasModified : Watcher → List Env → List (Bool × Option GoError)
  | _, [] => []
  | w, env :: rest =>
    let r := WasModified w env
    (r.ok, r.err) :: runWasModified r.w rest

/-- Successive `GetNewBytes` calls: the `(bytes, error)` results in order. -/
def runGetNewBytes : Watcher → List Env → List (List Byte × Option GoError)
  | _, [] => []
  | w, env :: rest =>
    let r := GetNewBytes w env
    (r.bytes, r.err) :: runGetNewBytes r.w rest

/-- The watched file at one call: its bytes (`none` when there is no file at
the path) and what the operating system answers during the call. -/
structure Moment where
  content : Option (List Byte)
  env : Env

/-- The moment in which the file is in state `fs` and every open and read
succeeds. -/
def momentOf (fs : Option FileState) : Moment :=
  { content := fs.map (fun s => s.content), env := envOf fs }

/-- The answers of the moment are those of a system that reads the file at the
path `file`: without a file the status lookup fails; with a file, whatever
handle an open returns delivers, from any offset, bytes of the file from that
offset on, in order, and may stop anywhere, at the end of the file or before it
with an error.  The lookup and the open themselves may fail. -/
def Moment.sound (file : String) (mo : Moment) : Prop :=
  match mo.content with
  | none => ∃ e, mo.env.osStat file = Except.error e
  | some c =>
    ∀ f, mo.env.osOpen file = Except.ok f →
      ∀ off, ∃ rest, bytesRead (f off) ++ rest = c.drop off

/-- An environment in which the file exists and opens, and a first `Read`
delivers at most `k` bytes from the offset and the next one fails with `e`. -/
def envFailingAfter (s : FileState) (k : Nat) (e : GoError) : Env :=
  { osStat := fun _ => Except.ok s.modTime,
    osOpen := fun _ => Except.ok (fun off =>
      [{ data := (s.content.drop off).take k, err := none },
       { data := [], err := some e }]) }

/-- A watcher together with the byte length the file had at the most recent
call that read it (`lastRead`) and at the most recent call that read it and
returned a nil error (`lastCleanRead`); `none` while there has been no such
call. -/
structure Tracked where
  w : Watcher
  lastRead : Option Nat
  lastCleanRead : Option Nat
  deriving DecidableEq, Repr

/-- One call at the given moment.  The call read the file when it performed a
`Read`; the read completed without error when the call returned a nil error. -/
def stepTracked (op : Op) (mo : Moment) (st : Tracked) : Tracked :=
  let (w1, r) := call op st.w mo.env
  match mo.content with
  | some c =>
    if SysCall.read ∈ r.calls then
      { w := w1, lastRead := some c.length,
        lastCleanRead := if r.err = none then some c.length else st.lastCleanRead }
    else { st with w := w1 }
  | none => { st with w := w1 }

/-- Successive calls, each at its own moment. -/
def runTracked : Tracked → List (Op × Moment) → Tracked
  | st, [] => st
  | st, (op, mo) :: rest => runTracked (stepTracked op mo st) rest

/-- The read-offset bound of the specification, as a test on a tracked state:
`readBytes` does not exceed the byte length the file had at the most recent
read that completed without error, and is 0 while there has been none. -/
def withinLastCleanRead (st : Tracked) : Bool :=
  match st.lastCleanRead with
  | none => st.w.readBytes == 0
  | some n => decide (st.w.readBytes ≤ n)

/-- The read-offset bound against the most recent read, whether or not it
completed without error: `readBytes` does not exceed the byte length the file
had then, and is 0 while nothing has been read. -/
def withinLastRead (st : Tracked) : Bool :=
  match st.lastRead with
  | none => st.w.readBytes == 0
  | some n => decide (st.w.readBytes ≤ n)

/-- The file never gets shorter: each moment at which there is a file finds it
with at least the byte length `n` it had the time before. -/
def neverShrinks : Nat → List (Option (List Byte)) → Prop
  | _, [] => True
  | n, none :: rest => neverShrinks n rest
  | n, some c :: rest => n ≤ c.length ∧ neverShrinks c.length rest

/-! ## Sample inputs -/

/-- A watcher as `New` makes it for the path `log` last written at time 1. -/
def sampleWatcher : Watcher :=
  { zeroWatcher with fileName := "log", initialModTime := 1, lastModified := 1 }

/-- The bytes of `a line`. -/
def aLine : List Byte := [97, 32, 108, 105, 110, 101]

/-- The bytes of `new line`. -/
def newLine : List Byte := [110, 101, 119, 32, 108, 105, 110, 101]

/-- The bytes of `next line`. -/
def nextLine : List Byte := [110, 101, 120, 116, 32, 108, 105, 110, 101]

/-- A file that holds `a line` is read and checked; it grows by `new line` and
is read with a failure after three bytes; it grows by `next line` and is read
to the end; it is then removed. -/
def growingFile : List (Op × Moment) :=
  [(Op.getNewBytes, momentOf (some ⟨1, aLine⟩)),
   (Op.wasModified, momentOf (some ⟨1, aLine⟩)),
   (Op.getNewBytes,
     { content := some (aLine ++ newLine),
       env := envFailingAfter ⟨2, aLine ++ newLine⟩ 3 (GoError.msg "input/output error") }),
   (Op.getNewBytes, momentOf (some ⟨3, aLine ++ newLine ++ nextLine⟩)),
   (Op.getNewBytes, momentOf none)]

/-- A five-byte file is read, then cut to two bytes at a later time and read
again. -/
def truncatedFile : List (Op × Moment) :=
  [(Op.getNewBytes, momentOf (some ⟨1, [1, 2, 3, 4, 5]⟩)),
   (Op.getNewBytes, momentOf (some ⟨2, [1, 2]⟩))]

/-- The file `a line` (six bytes) is read; it then grows by `new line` to
fourteen bytes, and the next read delivers four bytes and fails. -/
def failedRead : List (Op × Moment) :=
  [(Op.getNewBytes, momentOf (some ⟨1, aLine⟩)),
   (Op.getNewBytes,
     { content := some (aLine ++ newLine),
       env := envFailingAfter ⟨2, aLine ++ newLine⟩ 4 (GoError.msg "input/output error") })]

/-! ## Properties -/

/-! ### Auxiliary facts -/

theorem Sub_pos_iff (t u : Int) : Sub t u > 0 ↔ u < t := by
  unfold Sub minDuration maxDuration
  split_ifs <;> constructor <;> intro h <;> omega

theorem checkTime_eq_max (a b : Int) :
    (if Sub b a > 0 then b else a) = max a b := by
  by_cases h : a < b
  · rw [if_pos ((Sub_pos_iff b a).2 h)]; exact (max_eq_right (le_of_lt h)).symm
  · rw [if_neg (fun h1 => h ((Sub_pos_iff b a).1 h1))]
    exact (max_eq_left (not_lt.1 h)).symm

theorem wasModified_of_stat (w : Watcher) (env : Env) (m : Int)
    (hl : w.fileLost = false) (hs : env.osStat w.fileName = Except.ok m) :
    WasModified w env =
      if max w.initialModTime w.lastModified < m then
        { w := { w with lastModified := m }, ok := true, err := none,
          calls := [SysCall.stat w.fileName] }
      else
        { w := w, ok := false, err := none, calls := [SysCall.stat w.fileName] } := by
  have hc : (if Sub w.lastModified w.initialModTime > 0 then w.lastModified
      else w.initialModTime) = max w.initialModTime w.lastModified :=
    checkTime_eq_max _ _
  by_cases h : max w.initialModTime w.lastModified < m
  · have h2 : Sub m (max w.initialModTime w.lastModified) > 0 := (Sub_pos_iff _ _).2 h
    simp [WasModified, getModTime, hs, hl, hc, h, h2]
  · have h2 : ¬ Sub m (max w.initialModTime w.lastModified) > 0 :=
      fun h3 => h ((Sub_pos_iff _ _).1 h3)
    simp only [WasModified, getModTime, hs, hl, hc, h, h2]
    simp

theorem wasModified_of_lost (w : Watcher) (env : Env) (hl : w.fileLost = true) :
    WasModified w env =
      { w := w, ok := false, err := some (lostError w.fileName),
        calls := [SysCall.stat w.fileName] } := by
  unfold WasModified getModTime
  cases hs : env.osStat w.fileName with
  | error e =>
    have hw : ({ w with fileLost := true } : Watcher) = w := by
      cases w; simp_all
    simp [hw, hl]
  | ok t => simp [hl]

theorem wasModified_of_stat_error (w : Watcher) (env : Env) (e : GoError)
    (hs : env.osStat w.fileName = Except.error e) :
    WasModified w env =
      { w := { w with fileLost := true }, ok := false, err := some (lostError w.fileName),
        calls := [SysCall.stat w.fileName] } := by
  simp [WasModified, getModTime, hs]

theorem readLoop_bytes (s : List ReadResult) (w : Watcher) (c : List Byte)
    (calls : List SysCall) : (readLoop s w c calls).bytes = c ++ bytesRead s := by
  induction s generalizing w c calls with
  | nil => simp [readLoop, bytesRead]
  | cons r rest ih =>
    unfold readLoop bytesRead
    cases hr : r.err with
    | some e => by_cases he : e = GoError.EOF <;> simp [he]
    | none =>
      by_cases hn : r.data.length > 0
      · simp only [hn, if_true]; rw [ih]; simp
      · have hd : r.data = [] := List.length_eq_zero.1 (by omega)
        simp only [hn, if_false]; rw [ih]; simp [hd]

theorem readLoop_readBytes (s : List ReadResult) (w : Watcher) (c : List Byte)
    (calls : List SysCall) :
    (readLoop s w c calls).w.readBytes = w.readBytes + (bytesRead s).length := by
  induction s generalizing w c calls with
  | nil => simp [readLoop, bytesRead]
  | cons r rest ih =>
    unfold readLoop bytesRead
    cases hr : r.err with
    | some e => by_cases he : e = GoError.EOF <;> simp [he]
    | none =>
      by_cases hn : r.data.length > 0
      · simp only [hn, if_true]; rw [ih]; simp; omega
      · have hd : r.data = [] := List.length_eq_zero.1 (by omega)
        simp only [hn, if_false]; rw [ih]; simp [hd]

theorem readLoop_err (s : List ReadResult) (w : Watcher) (c : List Byte)
    (calls : List SysCall) :
    (readLoop s w c calls).err =
      if firstErr s = GoError.EOF then none else some (firstErr s) := by
  induction s generalizing w c calls with
  | nil => simp [readLoop, firstErr]
  | cons r rest ih =>
    unfold readLoop firstErr
    cases hr : r.err with
    | some e => by_cases he : e = GoError.EOF <;> simp [he]
    | none =>
      by_cases hn : r.data.length > 0
      · simp only [hn, if_true]; rw [ih]
      · simp only [hn, if_false]; rw [ih]

theorem readLoop_fields (s : List ReadResult) (w : Watcher) (c : List Byte)
    (calls : List SysCall) : sameButOffsets (readLoop s w c calls).w w := by
  induction s generalizing w c calls with
  | nil => simp [readLoop, sameButOffsets]
  | cons r rest ih =>
    unfold readLoop
    cases hr : r.err with
    | some e => by_cases he : e = GoError.EOF <;> simp [he, sameButOffsets]
    | none =>
      by_cases hn : r.data.length > 0
      · simp only [hn, if_true]
        exact ih _ _ _
      · simp only [hn, if_false]
        exact ih _ _ _

theorem byteDelta_of_open (w : Watcher) (env : Env) (f : Handle)
    (ho : env.osOpen w.fileName = Except.ok f) :
    (byteDelta w env).bytes = bytesRead (f w.readBytes) ∧
    (byteDelta w env).w.readBytes = w.readBytes + (bytesRead (f w.readBytes)).length ∧
    (byteDelta w env).err =
      (if firstErr (f w.readBytes) = GoError.EOF then none
       else some (firstErr (f w.readBytes))) ∧
    sameButOffsets (byteDelta w env).w w := by
  unfold byteDelta
  rw [ho]
  by_cases h : w.readBytes > 0
  · simp only [h, if_true]
    exact ⟨by rw [readLoop_bytes]; simp, readLoop_readBytes _ _ _ _, readLoop_err _ _ _ _,
      readLoop_fields _ _ _ _⟩
  · have h0 : w.readBytes = 0 := by omega
    simp only [h, if_false]
    rw [h0]
    refine ⟨by rw [readLoop_bytes]; simp, ?_, readLoop_err _ _ _ _, readLoop_fields _ _ _ _⟩
    rw [readLoop_readBytes, h0]

theorem byteDelta_of_open_error (w : Watcher) (env : Env) (e : GoError)
    (ho : env.osOpen w.fileName = Except.error e) :
    byteDelta w env =
      { w := w, bytes := [], err := some e, calls := [SysCall.fopen w.fileName] } := by
  unfold byteDelta
  rw [ho]

theorem getNewBytes_of_lost (w : Watcher) (env : Env) (hl : w.fileLost = true) :
    GetNewBytes w env =
      { w := w, bytes := [], err := some (lostError w.fileName),
        calls := [SysCall.stat w.fileName] } := by
  simp [GetNewBytes, wasModified_of_lost w env hl]

theorem getNewBytes_of_stat_error (w : Watcher) (env : Env) (e : GoError)
    (hs : env.osStat w.fileName = Except.error e) :
    GetNewBytes w env =
      { w := { w with fileLost := true }, bytes := [], err := some (lostError w.fileName),
        calls := [SysCall.stat w.fileName] } := by
  simp [GetNewBytes, wasModified_of_stat_error w env e hs]

theorem getNewBytes_of_unmodified (w : Watcher) (env : Env) (m : Int)
    (hl : w.fileLost = false) (hr : w.readBytes ≠ 0)
    (hs : env.osStat w.fileName = Except.ok m)
    (hm : ¬ max w.initialModTime w.lastModified < m) :
    GetNewBytes w env =
      { w := w, bytes := [], err := none, calls := [SysCall.stat w.fileName] } := by
  simp [GetNewBytes, wasModified_of_stat w env m hl hs, hm, hr]

theorem call_of_lost (op : Op) (w : Watcher) (env : Env) (hl : w.fileLost = true) :
    call op w env =
      (w, { ok := false, bytes := [], err := some (lostError w.fileName),
            calls := [SysCall.stat w.fileName] }) := by
  cases op
  · simp [call, wasModified_of_lost w env hl]
  · simp [call, getNewBytes_of_lost w env hl]

theorem call_of_stat_error (op : Op) (w : Watcher) (env : Env) (e : GoError)
    (hs : env.osStat w.fileName = Except.error e) :
    call op w env =
      ({ w with fileLost := true },
       { ok := false, bytes := [], err := some (lostError w.fileName),
         calls := [SysCall.stat w.fileName] }) := by
  cases op
  · simp [call, wasModified_of_stat_error w env e hs]
  · simp [call, getNewBytes_of_stat_error w env e hs]

theorem runCalls_of_lost (w : Watcher) (steps : List (Op × Env)) (hl : w.fileLost = true) :
    (runCalls w steps).1 = w ∧
    ∀ r ∈ (runCalls w steps).2,
      r = { ok := false, bytes := [], err := some (lostError w.fileName),
            calls := [SysCall.stat w.fileName] } := by
  induction steps with
  | nil => simp [runCalls]
  | cons s rest ih =>
    obtain ⟨op, env⟩ := s
    simp only [runCalls, call_of_lost op w env hl]
    refine ⟨ih.1, ?_⟩
    intro r hr
    rcases List.mem_cons.1 hr with h | h
    · exact h
    · exact ih.2 r h

theorem foldl_channelOpts (opts : List WatcherOpt) (w : Watcher) (ho : channelOpts opts) :
    (opts.foldl (fun w opt => opt w) w).fileLost = w.fileLost ∧
    (opts.foldl (fun w opt => opt w) w).fileName = w.fileName ∧
    (opts.foldl (fun w opt => opt w) w).readBytes = w.readBytes ∧
    (opts.foldl (fun w opt => opt w) w).initialModTime = w.initialModTime ∧
    (opts.foldl (fun w opt => opt w) w).lastModified = w.lastModified := by
  induction opts generalizing w with
  | nil => simp
  | cons o rest ih =>
    obtain ⟨k, hk⟩ := ho o (List.mem_cons_self _ _)
    have hrest : channelOpts rest := fun o1 h1 => ho o1 (List.mem_cons_of_mem _ h1)
    simp only [List.foldl_cons]
    obtain ⟨h1, h2, h3, h4, h5⟩ := ih (o w) hrest
    rw [h1, h2, h3, h4, h5, hk]
    simp [WithChannelMonitor]

theorem new_fresh (env : Env) (file : String) (opts : List WatcherOpt) (m : Int)
    (ho : channelOpts opts) (hs : env.osStat file = Except.ok m) :
    (New env file opts).err = none ∧
    (New env file opts).watcher.fileLost = false ∧
    (New env file opts).watcher.fileName = file ∧
    (New env file opts).watcher.readBytes = 0 ∧
    (New env file opts).watcher.initialModTime = m ∧
    (New env file opts).watcher.lastModified = m := by
  simp only [New, hs]
  obtain ⟨h1, h2, h3, h4, h5⟩ :=
    foldl_channelOpts opts
      { zeroWatcher with fileName := file, initialModTime := m, lastModified := m } ho
  refine ⟨trivial, ?_, ?_, ?_, ?_, ?_⟩
  · rw [h1]; rfl
  · rw [h2]
  · rw [h3]; rfl
  · rw [h4]
  · rw [h5]

theorem runWasModified_advances (file : String) (w : Watcher) (m0 : Int)
    (envs : List Env) (ms : List Int)
    (hl : w.fileLost = false) (hf : w.fileName = file)
    (hmax : max w.initialModTime w.lastModified = m0)
    (hobs : List.Forall₂ (fun env m => env.osStat file = Except.ok m) envs ms)
    (hmono : List.Chain (fun a b => a ≤ b) m0 ms) :
    runWasModified w envs = (advances m0 ms).map (fun b => (b, none)) := by
  induction hobs generalizing w m0 with
  | nil => simp [runWasModified, advances]
  | @cons env m envs ms hs _ ih =>
    obtain ⟨hle, hrest⟩ := List.chain_cons.1 hmono
    rw [← hf] at hs
    have hw := wasModified_of_stat w env m hl hs
    rw [hmax] at hw
    unfold runWasModified advances
    by_cases hlt : m0 < m
    · rw [if_pos hlt] at hw
      simp only [hw, hlt, decide_True, List.map_cons]
      congr 1
      refine ih { w with lastModified := m } m hl hf ?_ hrest
      have hi : w.initialModTime ≤ m0 := by rw [← hmax]; exact le_max_left _ _
      show max w.initialModTime m = m
      exact max_eq_right (by omega)
    · rw [if_neg hlt] at hw
      have hm : m = m0 := by omega
      simp only [hw, hlt, decide_False, List.map_cons]
      congr 1
      exact ih w m hl hf (by rw [hmax, hm]) hrest

theorem getNewBytes_reads (w : Watcher) (env : Env) (m : Int) (f : Handle)
    (c : List Byte) (hl : w.fileLost = false)
    (hs : env.osStat w.fileName = Except.ok m)
    (ho : env.osOpen w.fileName = Except.ok f) (hr : ReadsFile c f)
    (hm : max w.initialModTime w.lastModified < m ∨ w.readBytes = 0) :
    (GetNewBytes w env).bytes = c.drop w.readBytes ∧
    (GetNewBytes w env).err = none ∧
    (GetNewBytes w env).w.readBytes = w.readBytes + (c.drop w.readBytes).length ∧
    (GetNewBytes w env).w.fileLost = false ∧
    (GetNewBytes w env).w.fileName = w.fileName ∧
    (GetNewBytes w env).w.initialModTime = w.initialModTime ∧
    (GetNewBytes w env).w.lastModified =
      (if max w.initialModTime w.lastModified < m then m else w.lastModified) := by
  have hw := wasModified_of_stat w env m hl hs
  obtain ⟨hb, he⟩ := hr w.readBytes
  by_cases hlt : max w.initialModTime w.lastModified < m
  · rw [if_pos hlt] at hw
    have ho1 : env.osOpen ({ w with lastModified := m } : Watcher).fileName = Except.ok f := ho
    obtain ⟨h1, h2, h3, h4⟩ := byteDelta_of_open { w with lastModified := m } env f ho1
    obtain ⟨_, _, _, k1, k2, k3, k4, _⟩ := h4
    simp only [GetNewBytes, hw, hlt, if_true]
    simp only [Bool.not_true, Bool.false_and, Bool.false_eq_true, if_false]
    exact ⟨by rw [h1]; exact hb, by rw [h3]; simp [he], by rw [h2]; simp [hb],
      by rw [k1]; exact hl, k2, k3, k4⟩
  · rw [if_neg hlt] at hw
    have h0 : w.readBytes = 0 := by
      rcases hm with h | h
      · exact absurd h hlt
      · exact h
    obtain ⟨h1, h2, h3, h4⟩ := byteDelta_of_open w env f ho
    obtain ⟨_, _, _, k1, k2, k3, k4, _⟩ := h4
    simp only [GetNewBytes, hw, hlt, if_false, h0]
    simp only [bne_self_eq_false, Bool.and_false, Bool.false_eq_true, if_false]
    exact ⟨by rw [h1, ← h0]; exact hb, by rw [h3]; simp [he],
      by rw [h2, ← h0]; simp [hb], k1.trans hl, k2, k3, k4⟩

theorem runGetNewBytes_appends (file : String) (w : Watcher) (m : Int) (c : List Byte)
    (steps : List (List Byte × Env))
    (hl : w.fileLost = false) (hf : w.fileName = file) (hc : w.readBytes = c.length)
    (hmax : max w.initialModTime w.lastModified = m)
    (hrun : AppendRun file m c steps) :
    runGetNewBytes w (steps.map Prod.snd) = steps.map (fun s => (s.1, none)) := by
  induction steps generalizing w m c with
  | nil => simp [runGetNewBytes]
  | cons s rest ih =>
    obtain ⟨b, env⟩ := s
    obtain ⟨m1, f, hlt, hs, ho, hr, hrest⟩ := hrun
    rw [← hf] at hs ho
    rw [← hmax] at hlt
    obtain ⟨h1, h2, h3, h4, h5, h6, h7⟩ :=
      getNewBytes_reads w env m1 f (c ++ b) hl hs ho hr (Or.inl hlt)
    rw [if_pos hlt] at h7
    have hd : (c ++ b).drop w.readBytes = b := by rw [hc]; simp
    rw [hd] at h1 h3
    simp only [List.map_cons, runGetNewBytes, h1, h2]
    congr 1
    refine ih (GetNewBytes w env).w m1 (c ++ b) h4 (h5.trans hf) ?_ ?_ hrest
    · rw [h3, hc]; simp
    · rw [h6, h7]
      have hi : w.initialModTime ≤ max w.initialModTime w.lastModified := le_max_left _ _
      exact max_eq_right (by omega)

theorem readChunks_reads (size : Nat) (hsize : 0 < size) (fuel : Nat) (bs : List Byte)
    (hfuel : bs.length < fuel) :
    bytesRead (readChunks size fuel bs) = bs ∧
    firstErr (readChunks size fuel bs) = GoError.EOF := by
  induction fuel generalizing bs with
  | zero => omega
  | succ k ih =>
    unfold readChunks
    cases bs with
    | nil => simp [bytesRead, firstErr]
    | cons a rest =>
      have hlen : ((a :: rest).drop size).length < k := by
        rw [List.length_drop]
        simp only [List.length_cons] at hfuel ⊢
        omega
      obtain ⟨h1, h2⟩ := ih ((a :: rest).drop size) hlen
      simp only [List.isEmpty_cons, Bool.false_eq_true, if_false, bytesRead, firstErr, h1, h2,
        List.take_append_drop, and_self]

theorem fileHandle_readsFile (c : List Byte) : ReadsFile c (fileHandle c) := by
  intro off
  unfold fileHandle
  refine readChunks_reads bufSize (by decide) _ _ ?_
  rw [List.length_drop]
  omega

theorem readLoop_calls_read (s : List ReadResult) (w : Watcher) (c : List Byte)
    (calls : List SysCall) : SysCall.read ∈ (readLoop s w c calls).calls := by
  induction s generalizing w c calls with
  | nil => simp [readLoop]
  | cons r rest ih =>
    unfold readLoop
    cases hr : r.err with
    | some e => by_cases he : e = GoError.EOF <;> simp [he]
    | none =>
      by_cases hn : r.data.length > 0
      · simp only [hn, if_true]; exact ih _ _ _
      · simp only [hn, if_false]; exact ih _ _ _

theorem byteDelta_calls_read (w : Watcher) (env : Env) (f : Handle)
    (ho : env.osOpen w.fileName = Except.ok f) :
    SysCall.read ∈ (byteDelta w env).calls := by
  unfold byteDelta
  rw [ho]
  by_cases h : w.readBytes > 0
  · simp only [h, if_true]; exact readLoop_calls_read _ _ _ _
  · simp only [h, if_false]; exact readLoop_calls_read _ _ _ _

theorem getNewBytes_calls_read (w : Watcher) (env : Env) (m : Int) (f : Handle)
    (hl : w.fileLost = false)
    (hs : env.osStat w.fileName = Except.ok m)
    (ho : env.osOpen w.fileName = Except.ok f)
    (hm : max w.initialModTime w.lastModified < m ∨ w.readBytes = 0) :
    SysCall.read ∈ (GetNewBytes w env).calls := by
  have hw := wasModified_of_stat w env m hl hs
  by_cases hlt : max w.initialModTime w.lastModified < m
  · rw [if_pos hlt] at hw
    have ho1 : env.osOpen ({ w with lastModified := m } : Watcher).fileName = Except.ok f := ho
    have hc := byteDelta_calls_read { w with lastModified := m } env f ho1
    simp only [GetNewBytes, hw, hlt, if_true]
    simp only [Bool.not_true, Bool.false_and, Bool.false_eq_true, if_false]
    exact List.mem_append_right _ hc
  · rw [if_neg hlt] at hw
    have h0 : w.readBytes = 0 := by
      rcases hm with h | h
      · exact absurd h hlt
      · exact h
    have hc := byteDelta_calls_read w env f ho
    simp only [GetNewBytes, hw, hlt, if_false, h0]
    simp only [bne_self_eq_false, Bool.and_false, Bool.false_eq_true, if_false]
    exact List.mem_append_right _ hc

theorem getNewBytes_delta (w : Watcher) (env : Env) (m : Int)
    (hl : w.fileLost = false) (hs : env.osStat w.fileName = Except.ok m)
    (hm : max w.initialModTime w.lastModified < m ∨ w.readBytes = 0) :
    ∃ w1 : Watcher, w1.fileName = w.fileName ∧ w1.readBytes = w.readBytes ∧
      (GetNewBytes w env).w = (byteDelta w1 env).w ∧
      (GetNewBytes w env).err = (byteDelta w1 env).err ∧
      (GetNewBytes w env).calls = [SysCall.stat w.fileName] ++ (byteDelta w1 env).calls := by
  have hw := wasModified_of_stat w env m hl hs
  by_cases hlt : max w.initialModTime w.lastModified < m
  · rw [if_pos hlt] at hw
    refine ⟨{ w with lastModified := m }, rfl, rfl, ?_⟩
    simp only [GetNewBytes, hw, hlt, if_true]
    simp only [Bool.not_true, Bool.false_and, Bool.false_eq_true, if_false]
    exact ⟨trivial, trivial, trivial⟩
  · rw [if_neg hlt] at hw
    have h0 : w.readBytes = 0 := by
      rcases hm with h | h
      · exact absurd h hlt
      · exact h
    refine ⟨w, rfl, rfl, ?_⟩
    simp only [GetNewBytes, hw, hlt, if_false, h0]
    simp only [bne_self_eq_false, Bool.and_false, Bool.false_eq_true, if_false]
    exact ⟨trivial, trivial, trivial⟩

theorem call_effect (op : Op) (w : Watcher) (env : Env) :
    (call op w env).1.fileName = w.fileName ∧
    ((SysCall.read ∉ (call op w env).2.calls ∧ (call op w env).1.readBytes = w.readBytes) ∨
     (SysCall.read ∈ (call op w env).2.calls ∧
      ∃ f, env.osOpen w.fileName = Except.ok f ∧
        (call op w env).1.readBytes = w.readBytes + (bytesRead (f w.readBytes)).length)) := by
  by_cases hl : w.fileLost = true
  · rw [call_of_lost op w env hl]
    exact ⟨rfl, Or.inl ⟨by simp, rfl⟩⟩
  have hl0 : w.fileLost = false := by simpa using hl
  cases hs : env.osStat w.fileName with
  | error e =>
    rw [call_of_stat_error op w env e hs]
    exact ⟨rfl, Or.inl ⟨by simp, rfl⟩⟩
  | ok m =>
    cases op with
    | wasModified =>
      have hw := wasModified_of_stat w env m hl0 hs
      by_cases hlt : max w.initialModTime w.lastModified < m
      · rw [if_pos hlt] at hw
        rw [show call Op.wasModified w env = ((WasModified w env).w,
          { ok := (WasModified w env).ok, bytes := [], err := (WasModified w env).err,
            calls := (WasModified w env).calls }) from rfl, hw]
        exact ⟨rfl, Or.inl ⟨by simp, rfl⟩⟩
      · rw [if_neg hlt] at hw
        rw [show call Op.wasModified w env = ((WasModified w env).w,
          { ok := (WasModified w env).ok, bytes := [], err := (WasModified w env).err,
            calls := (WasModified w env).calls }) from rfl, hw]
        exact ⟨rfl, Or.inl ⟨by simp, rfl⟩⟩
    | getNewBytes =>
      by_cases hm : max w.initialModTime w.lastModified < m ∨ w.readBytes = 0
      · obtain ⟨w1, hf1, hr1, hgw, _, hgc⟩ := getNewBytes_delta w env m hl0 hs hm
        simp only [call]
        rw [hgw, hgc]
        cases ho : env.osOpen w1.fileName with
        | error e =>
          rw [byteDelta_of_open_error w1 env e ho]
          exact ⟨hf1, Or.inl ⟨by simp, hr1⟩⟩
        | ok f =>
          obtain ⟨_, h2, _, h4⟩ := byteDelta_of_open w1 env f ho
          obtain ⟨_, _, _, _, k2, _⟩ := h4
          have hc := byteDelta_calls_read w1 env f ho
          refine ⟨k2.trans hf1, Or.inr ⟨List.mem_append_right _ hc, f, ?_, ?_⟩⟩
          · rw [← hf1]; exact ho
          · rw [h2, hr1]
      · have hm1 : ¬ max w.initialModTime w.lastModified < m := fun h => hm (Or.inl h)
        have hm2 : w.readBytes ≠ 0 := fun h => hm (Or.inr h)
        have hg := getNewBytes_of_unmodified w env m hl0 hm2 hs hm1
        rw [show call Op.getNewBytes w env = ((GetNewBytes w env).w,
          { ok := false, bytes := (GetNewBytes w env).bytes, err := (GetNewBytes w env).err,
            calls := (GetNewBytes w env).calls }) from rfl, hg]
        exact ⟨rfl, Or.inl ⟨by simp, rfl⟩⟩

theorem momentOf_sound (file : String) (fs : Option FileState) :
    (momentOf fs).sound file := by
  cases fs with
  | none => exact ⟨GoError.msg "no such file or directory", rfl⟩
  | some s =>
    intro f hf off
    have hf1 : f = fileHandle s.content := by
      have h : Except.ok (fileHandle s.content) = (Except.ok f : Except GoError Handle) := hf
      injection h with h1
      exact h1.symm
    rw [hf1]
    exact ⟨[], by rw [(fileHandle_readsFile s.content off).1]; simp⟩

theorem stepTracked_bound (file : String) (op : Op) (mo : Moment) (st : Tracked) (n0 : Nat)
    (hf : st.w.fileName = file) (hsound : mo.sound file)
    (hb : st.w.readBytes ≤ n0) (hw : withinLastRead st = true)
    (hlen : ∀ c, mo.content = some c → n0 ≤ c.length) :
    (stepTracked op mo st).w.fileName = file ∧
    (stepTracked op mo st).w.readBytes ≤
      (match mo.content with
       | none => n0
       | some c => c.length) ∧
    withinLastRead (stepTracked op mo st) = true := by
  obtain ⟨content, env⟩ := mo
  cases content with
  | none =>
    obtain ⟨e, he⟩ := hsound
    rw [← hf] at he
    have h := call_of_stat_error op st.w env e he
    simp only [stepTracked, h]
    refine ⟨hf, hb, ?_⟩
    unfold withinLastRead at hw ⊢
    exact hw
  | some c =>
    have hle : n0 ≤ c.length := hlen c rfl
    obtain ⟨hfn, hcase⟩ := call_effect op st.w env
    rcases hcase with ⟨hno, hrb⟩ | ⟨hyes, f, ho, hrb⟩
    · simp only [stepTracked, hno, if_false]
      refine ⟨hfn.trans hf, by rw [hrb]; omega, ?_⟩
      unfold withinLastRead at hw ⊢
      simp only [hrb]
      exact hw
    · rw [hf] at ho
      obtain ⟨rest, hrest⟩ := hsound f ho st.w.readBytes
      have hlen2 : (bytesRead (f st.w.readBytes)).length + rest.length
          = c.length - st.w.readBytes := by
        rw [← List.length_append, hrest, List.length_drop]
      have hfin : (call op st.w env).1.readBytes ≤ c.length := by
        rw [hrb]; omega
      simp only [stepTracked, hyes, if_true]
      refine ⟨hfn.trans hf, hfin, ?_⟩
      simp only [withinLastRead]
      exact decide_eq_true hfin

theorem runTracked_within (file : String) (st : Tracked) (n0 : Nat)
    (steps : List (Op × Moment))
    (hf : st.w.fileName = file)
    (hs : ∀ x ∈ steps, x.2.sound file)
    (hb : st.w.readBytes ≤ n0) (hw : withinLastRead st = true)
    (hn : neverShrinks n0 (steps.map (fun x => x.2.content))) :
    withinLastRead (runTracked st steps) = true := by
  induction steps generalizing st n0 with
  | nil => exact hw
  | cons x rest ih =>
    obtain ⟨op, mo⟩ := x
    have hsound : mo.sound file := hs (op, mo) (List.mem_cons_self _ _)
    have hs1 : ∀ y ∈ rest, y.2.sound file := fun y hy => hs y (List.mem_cons_of_mem _ hy)
    simp only [runTracked]
    cases hc : mo.content with
    | none =>
      have hn1 : neverShrinks n0 (rest.map (fun x => x.2.content)) := by
        simpa [neverShrinks, hc] using hn
      obtain ⟨h1, h2, h3⟩ := stepTracked_bound file op mo st n0 hf hsound hb hw
        (fun c h => by rw [hc] at h; cases h)
      rw [hc] at h2
      exact ih _ n0 h1 hs1 h2 h3 hn1
    | some c =>
      have hn1 : n0 ≤ c.length ∧ neverShrinks c.length (rest.map (fun x => x.2.content)) := by
        simpa [neverShrinks, hc] using hn
      obtain ⟨h1, h2, h3⟩ := stepTracked_bound file op mo st n0 hf hsound hb hw
        (fun c1 h => by rw [hc] at h; cases h; exact hn1.1)
      rw [hc] at h2
      exact ih _ c.length h1 hs1 h2 h3 hn1.2

theorem envFailingAfter_sound (file : String) (s : FileState) (k : Nat) (e : GoError) :
    Moment.sound file { content := some s.content, env := envFailingAfter s k e } := by
  intro f hf off
  have hf1 : f = (fun off =>
      [{ data := (s.content.drop off).take k, err := none },
       { data := [], err := some e }]) := by
    have h : Except.ok (fun off =>
        ([{ data := (s.content.drop off).take k, err := none },
          { data := [], err := some e }] : List ReadResult))
          = (Except.ok f : Except GoError Handle) := hf
    injection h with h1
    exact h1.symm
  rw [hf1]
  exact ⟨(s.content.drop off).drop k, by simp [bytesRead]⟩

theorem growingFile_sound : ∀ x ∈ growingFile, x.2.sound "log" := by
  intro x hx
  simp only [growingFile, List.mem_cons, List.mem_singleton, List.not_mem_nil, or_false] at hx
  rcases hx with h | h | h | h | h
  · rw [h]; exact momentOf_sound _ _
  · rw [h]; exact momentOf_sound _ _
  · rw [h]
    exact envFailingAfter_sound "log" ⟨2, aLine ++ newLine⟩ 3 (GoError.msg "input/output error")
  · rw [h]; exact momentOf_sound _ _
  · rw [h]; exact momentOf_sound _ _

/-! ### The claims -/

/-- C3: for a watcher that is not lost and a status lookup that returns
modification time `m`, `WasModified` returns `(true, nil)` and stores `m` in
`lastModified` when `m` is strictly later than the larger of `initialModTime`
and `lastModified`; otherwise it returns `(false, nil)` and the watcher is
unchanged.  No other field, `readBytes` included, changes in either case, and
the lookup is the only system call. -/
theorem wasModified_compares_with_max (w : Watcher) (env : Env) (m : Int)
    (hl : w.fileLost = false) (hs : env.osStat w.fileName = Except.ok m) :
    WasModified w env =
      if max w.initialModTime w.lastModified < m then
        { w := { w with lastModified := m }, ok := true, err := none,
          calls := [SysCall.stat w.fileName] }
      else
        { w := w, ok := false, err := none, calls := [SysCall.stat w.fileName] } :=
  wasModified_of_stat w env m hl hs


/-- C3 at a watcher made at time 1 whose file is now stamped 2. -/
theorem wasModified_compares_with_max_witness :
    sampleWatcher.fileLost = false ∧
    (envOf (some ⟨2, aLine⟩)).osStat sampleWatcher.fileName = Except.ok 2 ∧
    WasModified sampleWatcher (envOf (some ⟨2, aLine⟩)) =
      (if max sampleWatcher.initialModTime sampleWatcher.lastModified < 2 then
        { w := { sampleWatcher with lastModified := 2 }, ok := true, err := none,
          calls := [SysCall.stat sampleWatcher.fileName] }
      else
        { w := sampleWatcher, ok := false, err := none,
          calls := [SysCall.stat sampleWatcher.fileName] }) :=
  ⟨rfl, rfl, wasModified_compares_with_max sampleWatcher (envOf (some ⟨2, aLine⟩)) 2 rfl rfl⟩

/-- C10: for every `byteDelta` call, the returned bytes are the chunks read from
the previous `readBytes` offset, concatenated in order, up to the first `Read`
that returned an error (none when the open fails), and `readBytes` after the
call is `readBytes` before it plus the number of bytes returned; the error is
the open error, nil at end of file, or the read error. -/
theorem byteDelta_offset_matches_returned_bytes (w : Watcher) (env : Env) :
    (byteDelta w env).bytes =
        (match env.osOpen w.fileName with
         | Except.error _ => []
         | Except.ok f => bytesRead (f w.readBytes)) ∧
    (byteDelta w env).w.readBytes = w.readBytes + (byteDelta w env).bytes.length ∧
    (byteDelta w env).err =
        (match env.osOpen w.fileName with
         | Except.error e => some e
         | Except.ok f =>
           if firstErr (f w.readBytes) = GoError.EOF then none
           else some (firstErr (f w.readBytes))) := by
  cases ho : env.osOpen w.fileName with
  | error e => simp [byteDelta_of_open_error w env e ho]
  | ok f =>
    obtain ⟨h1, h2, h3, _⟩ := byteDelta_of_open w env f ho
    simp only [h1, h2, h3]
    simp

/-- C5: for a watcher that is not lost and has `readBytes` different from 0,
when the status lookup returns a modification time that is not strictly later
than the larger of `initialModTime` and `lastModified`, `GetNewBytes` returns an
empty byte sequence and a nil error, makes no system call besides the lookup
(no open, no read) and leaves the watcher unchanged, whatever the environment
would have answered to an open. -/
theorem getNewBytes_nothing_new (w : Watcher) (env : Env) (m : Int)
    (hl : w.fileLost = false) (hr : w.readBytes ≠ 0)
    (hs : env.osStat w.fileName = Except.ok m)
    (hm : ¬ max w.initialModTime w.lastModified < m) :
    GetNewBytes w env =
      { w := w, bytes := [], err := none, calls := [SysCall.stat w.fileName] } :=
  getNewBytes_of_unmodified w env m hl hr hs hm


/-- C5 at a watcher that has read two bytes of a file not written since. -/
theorem getNewBytes_nothing_new_witness :
    ({ sampleWatcher with readBytes := 2 } : Watcher).fileLost = false ∧
    ({ sampleWatcher with readBytes := 2 } : Watcher).readBytes ≠ 0 ∧
    (envOf (some ⟨1, aLine⟩)).osStat ({ sampleWatcher with readBytes := 2 } : Watcher).fileName
      = Except.ok 1 ∧
    ¬ max ({ sampleWatcher with readBytes := 2 } : Watcher).initialModTime
        ({ sampleWatcher with readBytes := 2 } : Watcher).lastModified < 1 ∧
    GetNewBytes { sampleWatcher with readBytes := 2 } (envOf (some ⟨1, aLine⟩)) =
      { w := { sampleWatcher with readBytes := 2 }, bytes := [], err := none,
        calls := [SysCall.stat ({ sampleWatcher with readBytes := 2 } : Watcher).fileName] } :=
  ⟨rfl, by decide, rfl, by decide,
    getNewBytes_nothing_new { sampleWatcher with readBytes := 2 } (envOf (some ⟨1, aLine⟩)) 1
      rfl (by decide) rfl (by decide)⟩

/-- C9: when the initial status lookup fails, `New` returns that error with the
zero `Watcher`, whose `ByteChannel` and `ErrChannel` are nil, and does not start
the monitor; the result is the same for every list of options, so none was
applied. -/
theorem new_fails_before_options (env : Env) (file : String) (opts : List WatcherOpt)
    (e : GoError) (hs : env.osStat file = Except.error e) :
    New env file opts = { watcher := zeroWatcher, err := some e, monitorStarted := false } ∧
    (New env file opts).err ≠ none ∧
    (New env file opts).watcher.ByteChannel = none ∧
    (New env file opts).watcher.ErrChannel = none ∧
    (New env file opts).watcher.useChan = false := by
  have h : New env file opts =
      { watcher := zeroWatcher, err := some e, monitorStarted := false } := by
    simp [New, hs]
  rw [h]
  simp [zeroWatcher]


/-- C9 at a path that does not exist, with the channel option. -/
theorem new_fails_before_options_witness :
    (envOf none).osStat "/rot/random"
      = Except.error (GoError.msg "no such file or directory") ∧
    New (envOf none) "/rot/random" [WithChannelMonitor 2] =
      { watcher := zeroWatcher, err := some (GoError.msg "no such file or directory"),
        monitorStarted := false } ∧
    (New (envOf none) "/rot/random" [WithChannelMonitor 2]).err ≠ none ∧
    (New (envOf none) "/rot/random" [WithChannelMonitor 2]).watcher.ByteChannel = none ∧
    (New (envOf none) "/rot/random" [WithChannelMonitor 2]).watcher.ErrChannel = none ∧
    (New (envOf none) "/rot/random" [WithChannelMonitor 2]).watcher.useChan = false :=
  ⟨rfl, new_fails_before_options (envOf none) "/rot/random" [WithChannelMonitor 2]
    (GoError.msg "no such file or directory") rfl⟩

/-- C2: when the status lookup fails during a `WasModified` or `GetNewBytes`
call, the call returns the error whose message is "File <fileName> is no longer
accessible" and sets `fileLost`, changing nothing else; every later call of
either method, in any environment, returns that same error after the status
lookup alone (no open, no read), with no bytes, and leaves the watcher,
`readBytes` included, as it was. -/
theorem lost_is_sticky (op : Op) (w : Watcher) (env : Env) (e : GoError)
    (steps : List (Op × Env)) (hs : env.osStat w.fileName = Except.error e) :
    call op w env =
      ({ w with fileLost := true },
       { ok := false, bytes := [],
         err := some (GoError.msg ("File " ++ w.fileName ++ " is no longer accessible")),
         calls := [SysCall.stat w.fileName] }) ∧
    (runCalls (call op w env).1 steps).1 = { w with fileLost := true } ∧
    ∀ r ∈ (runCalls (call op w env).1 steps).2,
      r = { ok := false, bytes := [],
            err := some (GoError.msg ("File " ++ w.fileName ++ " is no longer accessible")),
            calls := [SysCall.stat w.fileName] } := by
  have h := call_of_stat_error op w env e hs
  rw [h]
  exact ⟨rfl, runCalls_of_lost { w with fileLost := true } steps rfl⟩

/-- C2 at the watcher of `log`, whose file is removed before a `GetNewBytes`
call and present again, with new content, for the two calls after it: all three
calls return "File log is no longer accessible". -/
theorem lost_is_sticky_witness :
    (envOf none).osStat sampleWatcher.fileName
      = Except.error (GoError.msg "no such file or directory") ∧
    (call Op.getNewBytes sampleWatcher (envOf none) =
      ({ sampleWatcher with fileLost := true },
       { ok := false, bytes := [],
         err := some (GoError.msg "File log is no longer accessible"),
         calls := [SysCall.stat "log"] }) ∧
    (runCalls (call Op.getNewBytes sampleWatcher (envOf none)).1
        [(Op.wasModified, envOf (some ⟨3, aLine⟩)),
         (Op.getNewBytes, envOf (some ⟨3, aLine⟩))]).1
      = { sampleWatcher with fileLost := true } ∧
    ∀ r ∈ (runCalls (call Op.getNewBytes sampleWatcher (envOf none)).1
        [(Op.wasModified, envOf (some ⟨3, aLine⟩)),
         (Op.getNewBytes, envOf (some ⟨3, aLine⟩))]).2,
      r = { ok := false, bytes := [],
            err := some (GoError.msg "File log is no longer accessible"),
            calls := [SysCall.stat "log"] }) :=
  ⟨rfl, lost_is_sticky Op.getNewBytes sampleWatcher (envOf none)
    (GoError.msg "no such file or directory")
    [(Op.wasModified, envOf (some ⟨3, aLine⟩)), (Op.getNewBytes, envOf (some ⟨3, aLine⟩))] rfl⟩

/-- C7, as the code has it: one tick of the channel monitor sends, in this
order, the error on `ErrChannel` and an empty byte sequence on `ByteChannel`
when `GetNewBytes` returned an error, and then the bytes on `ByteChannel` when
they are not empty, whether or not there was an error. -/
theorem monitor_tick_sends (w : Watcher) (env : Env) :
    (∀ (bytes : List Byte) (err : Option GoError),
      monitorSends bytes err =
        match err with
        | some e =>
          if bytes.length > 0 then
            [Send.onErrChannel e, Send.onByteChannel [], Send.onByteChannel bytes]
          else [Send.onErrChannel e, Send.onByteChannel []]
        | none => if bytes.length > 0 then [Send.onByteChannel bytes] else []) ∧
    monitorTick w env =
      ((GetNewBytes w env).w,
       monitorSends (GetNewBytes w env).bytes (GetNewBytes w env).err) := by
  refine ⟨?_, rfl⟩
  intro bytes err
  cases err <;> by_cases h : bytes.length > 0 <;> simp [monitorSends, h]

/-- C7 as stated fails: `GetNewBytes` can return an error together with the
bytes read before it, and the tick then sends those bytes on `ByteChannel`
after the error and the empty byte sequence. -/
theorem monitor_tick_sends_bytes_after_error :
    (GetNewBytes (New faultyEnv "log" [WithChannelMonitor 1]).watcher faultyEnv).bytes
      = [104, 105] ∧
    (GetNewBytes (New faultyEnv "log" [WithChannelMonitor 1]).watcher faultyEnv).err
      = some (GoError.msg "input/output error") ∧
    (monitorTick (New faultyEnv "log" [WithChannelMonitor 1]).watcher faultyEnv).2
      = [Send.onErrChannel (GoError.msg "input/output error"), Send.onByteChannel [],
         Send.onByteChannel [104, 105]] ∧
    (monitorTick (New faultyEnv "log" [WithChannelMonitor 1]).watcher faultyEnv).2
      ≠ specSends [104, 105] (some (GoError.msg "input/output error")) := by
  decide

/-- C6: for a watcher made by `New` when the file had modification time `m0`,
successive `WasModified` calls that observe the times `m1 <= ... <= mk` with
`m0 <= m1` return no error, and the i-th returns true exactly when `mi` is
strictly later than the time before it. -/
theorem wasModified_reports_each_advance_once (env0 : Env) (file : String)
    (opts : List WatcherOpt) (m0 : Int) (envs : List Env) (ms : List Int)
    (ho : channelOpts opts) (h0 : env0.osStat file = Except.ok m0)
    (hobs : List.Forall₂ (fun env m => env.osStat file = Except.ok m) envs ms)
    (hmono : List.Chain (fun a b => a ≤ b) m0 ms) :
    runWasModified (New env0 file opts).watcher envs =
      (advances m0 ms).map (fun b => (b, none)) := by
  obtain ⟨_, hl, hf, _, hi, hlm⟩ := new_fresh env0 file opts m0 ho h0
  exact runWasModified_advances file _ m0 envs ms hl hf (by rw [hi, hlm, max_self]) hobs hmono


/-- C6 at a file made at time 1, looked at once before and twice after a write
at time 2: the answers are false, true, false. -/
theorem wasModified_reports_each_advance_once_witness :
    channelOpts [] ∧
    (envOf (some ⟨1, []⟩)).osStat "log" = Except.ok 1 ∧
    List.Forall₂ (fun env m => env.osStat "log" = Except.ok m)
      [envOf (some ⟨1, []⟩), envOf (some ⟨2, aLine⟩), envOf (some ⟨2, aLine⟩)] [1, 2, 2] ∧
    List.Chain (fun a b => a ≤ b) (1 : Int) [1, 2, 2] ∧
    runWasModified (New (envOf (some ⟨1, []⟩)) "log" []).watcher
        [envOf (some ⟨1, []⟩), envOf (some ⟨2, aLine⟩), envOf (some ⟨2, aLine⟩)] =
      (advances 1 [1, 2, 2]).map (fun b => (b, none)) ∧
    advances 1 [1, 2, 2] = [false, true, false] :=
  ⟨by simp [channelOpts], rfl,
    List.Forall₂.cons rfl (List.Forall₂.cons rfl (List.Forall₂.cons rfl List.Forall₂.nil)),
    by simp,
    wasModified_reports_each_advance_once (envOf (some ⟨1, []⟩)) "log" [] 1
      [envOf (some ⟨1, []⟩), envOf (some ⟨2, aLine⟩), envOf (some ⟨2, aLine⟩)] [1, 2, 2]
      (by simp [channelOpts]) rfl
      (List.Forall₂.cons rfl (List.Forall₂.cons rfl (List.Forall₂.cons rfl List.Forall₂.nil)))
      (by simp),
    by decide⟩

/-- C4: for a file with content `c` whose modification time is still the one
`New` saw, the first `GetNewBytes` call on the fresh watcher, with the open and
the reads succeeding, returns exactly `c` with a nil error and leaves
`readBytes` at the length of `c`. -/
theorem first_read_returns_whole_content (env0 env : Env) (file : String)
    (opts : List WatcherOpt) (m : Int) (c : List Byte) (f : Handle)
    (ho : channelOpts opts) (h0 : env0.osStat file = Except.ok m)
    (hs : env.osStat file = Except.ok m) (hopen : env.osOpen file = Except.ok f)
    (hr : ReadsFile c f) :
    (New env0 file opts).watcher.readBytes = 0 ∧
    (GetNewBytes (New env0 file opts).watcher env).bytes = c ∧
    (GetNewBytes (New env0 file opts).watcher env).err = none ∧
    (GetNewBytes (New env0 file opts).watcher env).w.readBytes = c.length := by
  obtain ⟨_, hl, hf, hz, _, _⟩ := new_fresh env0 file opts m ho h0
  rw [← hf] at hs hopen
  obtain ⟨h1, h2, h3, _⟩ :=
    getNewBytes_reads (New env0 file opts).watcher env m f c hl hs hopen hr (Or.inr hz)
  rw [hz] at h1 h3
  exact ⟨hz, by simpa using h1, h2, by simpa using h3⟩


/-- C4 at a file that holds `a line` when the watcher is made. -/
theorem first_read_returns_whole_content_witness :
    channelOpts [] ∧
    (envOf (some ⟨1, aLine⟩)).osStat "log" = Except.ok 1 ∧
    (envOf (some ⟨1, aLine⟩)).osOpen "log" = Except.ok (fileHandle aLine) ∧
    ReadsFile aLine (fileHandle aLine) ∧
    (New (envOf (some ⟨1, aLine⟩)) "log" []).watcher.readBytes = 0 ∧
    (GetNewBytes (New (envOf (some ⟨1, aLine⟩)) "log" []).watcher
      (envOf (some ⟨1, aLine⟩))).bytes = aLine ∧
    (GetNewBytes (New (envOf (some ⟨1, aLine⟩)) "log" []).watcher
      (envOf (some ⟨1, aLine⟩))).err = none ∧
    (GetNewBytes (New (envOf (some ⟨1, aLine⟩)) "log" []).watcher
      (envOf (some ⟨1, aLine⟩))).w.readBytes = aLine.length :=
  ⟨by simp [channelOpts], rfl, rfl, fileHandle_readsFile aLine,
    first_read_returns_whole_content (envOf (some ⟨1, aLine⟩)) (envOf (some ⟨1, aLine⟩)) "log"
      [] 1 aLine (fileHandle aLine) (by simp [channelOpts]) rfl rfl rfl
      (fileHandle_readsFile aLine)⟩

/-- C1: for a watcher made by `New` on an empty file that is then only appended
to, with `GetNewBytes` called once after each append, every append moving the
modification time strictly forward and every lookup, open and read succeeding,
the i-th call returns exactly the i-th appended byte sequence with a nil error;
so the results concatenated are the appended sequences concatenated. -/
theorem getNewBytes_returns_each_append (env0 : Env) (file : String)
    (opts : List WatcherOpt) (m0 : Int) (steps : List (List Byte × Env))
    (ho : channelOpts opts) (h0 : env0.osStat file = Except.ok m0)
    (hrun : AppendRun file m0 [] steps) :
    runGetNewBytes (New env0 file opts).watcher (steps.map Prod.snd) =
      steps.map (fun s => (s.1, none)) ∧
    ((runGetNewBytes (New env0 file opts).watcher (steps.map Prod.snd)).map Prod.fst).flatten =
      (steps.map Prod.fst).flatten := by
  obtain ⟨_, hl, hf, hz, hi, hlm⟩ := new_fresh env0 file opts m0 ho h0
  have h := runGetNewBytes_appends file _ m0 [] steps hl hf (by simpa using hz)
    (by rw [hi, hlm, max_self]) hrun
  refine ⟨h, ?_⟩
  rw [h, List.map_map]
  rfl


/-- C1 at an empty file to which `new line` and then `next line` are appended. -/
theorem getNewBytes_returns_each_append_witness :
    channelOpts [] ∧
    (envOf (some ⟨1, []⟩)).osStat "log" = Except.ok 1 ∧
    AppendRun "log" 1 []
      [(newLine, envOf (some ⟨2, newLine⟩)), (nextLine, envOf (some ⟨3, newLine ++ nextLine⟩))] ∧
    runGetNewBytes (New (envOf (some ⟨1, []⟩)) "log" []).watcher
        ([(newLine, envOf (some ⟨2, newLine⟩)),
          (nextLine, envOf (some ⟨3, newLine ++ nextLine⟩))].map Prod.snd) =
      [(newLine, envOf (some ⟨2, newLine⟩)),
       (nextLine, envOf (some ⟨3, newLine ++ nextLine⟩))].map (fun s => (s.1, none)) ∧
    ((runGetNewBytes (New (envOf (some ⟨1, []⟩)) "log" []).watcher
        ([(newLine, envOf (some ⟨2, newLine⟩)),
          (nextLine, envOf (some ⟨3, newLine ++ nextLine⟩))].map Prod.snd)).map
          Prod.fst).flatten =
      ([(newLine, envOf (some ⟨2, newLine⟩)),
        (nextLine, envOf (some ⟨3, newLine ++ nextLine⟩))].map Prod.fst).flatten :=
  ⟨by simp [channelOpts], rfl,
    ⟨2, fileHandle newLine, by decide, rfl, rfl, fileHandle_readsFile newLine,
      3, fileHandle (newLine ++ nextLine), by decide, rfl, rfl,
      fileHandle_readsFile (newLine ++ nextLine), trivial⟩,
    getNewBytes_returns_each_append (envOf (some ⟨1, []⟩)) "log" [] 1
      [(newLine, envOf (some ⟨2, newLine⟩)), (nextLine, envOf (some ⟨3, newLine ++ nextLine⟩))]
      (by simp [channelOpts]) rfl
      ⟨2, fileHandle newLine, by decide, rfl, rfl, fileHandle_readsFile newLine,
        3, fileHandle (newLine ++ nextLine), by decide, rfl, rfl,
        fileHandle_readsFile (newLine ++ nextLine), trivial⟩⟩

/-- C8 as stated fails, in two ways.  A five-byte file is read and then cut to
two bytes: the next `GetNewBytes` reads to the end of the file without error
and `readBytes` is still 5, above that length of 2.  A six-byte file is read
and then grows to fourteen bytes: the next `GetNewBytes` is handed four bytes
before a `Read` fails, and `readBytes` is 10, above the length of 6 the file
had at the most recent read that completed without error. -/
theorem readBytes_exceeds_length_at_last_clean_read :
    (runTracked ⟨(New (envOf (some ⟨1, [1, 2, 3, 4, 5]⟩)) "log" []).watcher, none, none⟩
        truncatedFile).w.readBytes = 5 ∧
    (runTracked ⟨(New (envOf (some ⟨1, [1, 2, 3, 4, 5]⟩)) "log" []).watcher, none, none⟩
        truncatedFile).lastCleanRead = some 2 ∧
    withinLastCleanRead
      (runTracked ⟨(New (envOf (some ⟨1, [1, 2, 3, 4, 5]⟩)) "log" []).watcher, none, none⟩
        truncatedFile) = false ∧
    (runTracked ⟨(New (envOf (some ⟨1, aLine⟩)) "log" []).watcher, none, none⟩
        failedRead).w.readBytes = 10 ∧
    (runTracked ⟨(New (envOf (some ⟨1, aLine⟩)) "log" []).watcher, none, none⟩
        failedRead).lastCleanRead = some 6 ∧
    (runTracked ⟨(New (envOf (some ⟨1, aLine⟩)) "log" []).watcher, none, none⟩
        failedRead).lastRead = some 14 ∧
    withinLastCleanRead
      (runTracked ⟨(New (envOf (some ⟨1, aLine⟩)) "log" []).watcher, none, none⟩
        failedRead) = false := by
  decide

/-- C8, for a file that never gets shorter and against the most recent read
whatever its outcome: in every state reached from `New` by any sequence of
`WasModified` and `GetNewBytes` calls, at moments whose lookups, opens and
reads may fail at any point and at which the byte length of the file never
decreases, `readBytes` does not exceed the byte length the file had at the most
recent read, whether that read completed without error or was cut short by
one. -/
theorem readBytes_within_last_read_when_never_shrinking (env0 : Env) (file : String)
    (opts : List WatcherOpt) (m0 : Int) (steps : List (Op × Moment))
    (ho : channelOpts opts) (h0 : env0.osStat file = Except.ok m0)
    (hs : ∀ x ∈ steps, x.2.sound file)
    (hn : neverShrinks 0 (steps.map (fun x => x.2.content))) :
    withinLastRead (runTracked ⟨(New env0 file opts).watcher, none, none⟩ steps) = true := by
  obtain ⟨_, _, hf, hz, _, _⟩ := new_fresh env0 file opts m0 ho h0
  exact runTracked_within file _ 0 steps hf hs (by simp [hz])
    (by simp [withinLastRead, hz]) hn

/-- C8 for a growing file: read, checked, written and read with a failure
after three bytes, written and read to the end, then removed. -/
theorem readBytes_within_last_read_when_never_shrinking_witness :
    channelOpts [] ∧
    (envOf (some ⟨1, aLine⟩)).osStat "log" = Except.ok 1 ∧
    (∀ x ∈ growingFile, x.2.sound "log") ∧
    neverShrinks 0 (growingFile.map (fun x => x.2.content)) ∧
    withinLastRead
      (runTracked ⟨(New (envOf (some ⟨1, aLine⟩)) "log" []).watcher, none, none⟩
        growingFile) = true :=
  ⟨by simp [channelOpts], rfl, growingFile_sound,
    by simp [neverShrinks, growingFile, momentOf, aLine, newLine, nextLine],
    readBytes_within_last_read_when_never_shrinking (envOf (some ⟨1, aLine⟩)) "log" [] 1
      growingFile (by simp [channelOpts]) rfl growingFile_sound
      (by simp [neverShrinks, growingFile, momentOf, aLine, newLine, nextLine])⟩

end FileWatcher
